import Mathlib

/-!
Verification of the hierarchical chunking engine and the resumable
scheduler of `hype_embedder/chunk.py`.

The Python source operates on strings as sequences of code points.  We
model a string by its underlying `List Char` (`String.data`) and
re-implement the Python primitives the source uses (`str.strip`,
`str.splitlines`, `str.startswith`, `"\n".join`, `s.split("\n\n")`)
as structural recursions so that every definition evaluates inside the
kernel.  The model treats `'\n'` as the only line boundary (the corpus
is plain LF-separated Markdown).
-/

/-- Python `str.isspace` character class (the characters `str.strip` removes). -/
def pyWs (c : Char) : Bool :=
  c = ' ' || c = '\t' || c = '\n' || c = '\r' || c = '\x0b' || c = '\x0c'

/-- Python `str.lstrip` on the character list. -/
def lstripL (cs : List Char) : List Char := cs.dropWhile pyWs

/-- Python `str.rstrip` on the character list. -/
def rstripL (cs : List Char) : List Char := (cs.reverse.dropWhile pyWs).reverse

/-- Python `str.strip` on the character list. -/
def stripL (cs : List Char) : List Char := lstripL (rstripL cs)

/-- Python `str.strip`. -/
def pyStrip (s : String) : String := ⟨stripL s.data⟩

/-- Worker for `str.splitlines`: `acc` is the reversed current line. -/
def splitAux : List Char → List Char → List (List Char)
  | [], acc => if acc = [] then [] else [acc.reverse]
  | c :: rest, acc =>
    if c = '\n' then acc.reverse :: splitAux rest [] else splitAux rest (c :: acc)

/-- Python `str.splitlines` on the character list (LF boundaries). -/
def splitlinesL (cs : List Char) : List (List Char) := splitAux cs []

/-- Python `str.splitlines`. -/
def pySplitlines (s : String) : List String := (splitlinesL s.data).map (⟨·⟩)

/-- Does `cs` start with the pattern `p`? -/
def startsWithL : List Char → List Char → Bool
  | [], _ => true
  | _ :: _, [] => false
  | p :: ps, c :: cs => p = c && startsWithL ps cs

/-- Python `s.startswith(pat)`. -/
def pyStartsWith (s pat : String) : Bool := startsWithL pat.data s.data

/-- Python `"\n".join` on character lists. -/
def joinNLL : List (List Char) → List Char
  | [] => []
  | x :: xs => x ++ (if xs.isEmpty then [] else '\n' :: joinNLL xs)

/-- Python `"\n\n".join` on character lists (used to state reassembly facts). -/
def joinNN : List (List Char) → List Char
  | [] => []
  | x :: xs => x ++ (if xs.isEmpty then [] else '\n' :: '\n' :: joinNN xs)

/-- Worker for Python `s.split("\n\n")`: left-to-right non-overlapping scan,
`acc` is the reversed current piece. -/
def split2Aux : List Char → List Char → List (List Char)
  | [], acc => [acc.reverse]
  | [c], acc => [(c :: acc).reverse]
  | c :: c' :: rest, acc =>
    if c = '\n' && c' = '\n' then acc.reverse :: split2Aux rest []
    else split2Aux (c' :: rest) (c :: acc)

/-- Python `s.split("\n\n")` on the character list. -/
def split2NL (cs : List Char) : List (List Char) := split2Aux cs []

/-- `cs` contains two consecutive newlines (a blank-line paragraph boundary). -/
def hasDbl : List Char → Bool
  | [] => false
  | [_] => false
  | c :: c' :: rest => (c = '\n' && c' = '\n') || hasDbl (c' :: rest)

/-! ### The chunking engine (`split_into_hierarchical_chunks` and its helpers) -/

/-- Python truthiness of the `current_title` variable in `sectionize`. -/
def optTruthy : Option String → Bool
  | none => false
  | some s => !(s.data.isEmpty)

/-- Python `[title] if title else []`. -/
def titleList : Option String → List String
  | none => []
  | some s => if s.data.isEmpty then [] else [s]

/-- `make_prefixed_chunk`: `"\n".join(filter(None, prefix_lines + body_lines)).strip()`. -/
def make_prefixed_chunk (pref body : List String) : String :=
  pyStrip ⟨joinNLL (((pref ++ body).filter (fun s => !s.data.isEmpty)).map String.data)⟩

/-- Worker for `sectionize`: the loop with `current_title`/`current_body` state,
flushing `(current_title, current_body)` whenever a marker line is met and
at the end, guarded by Python truthiness of the pair. -/
def sectionizeAux (marker : String) :
    List String → Option String → List String → List (Option String × List String)
  | [], t, b => if optTruthy t || !b.isEmpty then [(t, b)] else []
  | ln :: rest, t, b =>
    if pyStartsWith ln marker then
      (if optTruthy t || !b.isEmpty then [(t, b)] else [])
        ++ sectionizeAux marker rest (some (pyStrip ln)) []
    else
      sectionizeAux marker rest t (b ++ [ln])

/-- `sectionize(lines, marker)` from `chunk.py`. -/
def sectionize (lines : List String) (marker : String) :
    List (Option String × List String) :=
  sectionizeAux marker lines none []

/-- The `section_text` built inside `pack_sections`:
`make_prefixed_chunk(prefix + ([title] if title else []), body)`. -/
def secText (pref : List String) (u : Option String × List String) : String :=
  make_prefixed_chunk (pref ++ titleList u.1) u.2

/-- Worker for `pack_sections`: greedy buffer accumulation.  `buf` is
`buf_body` (a list of lines) and `len` is `current_len`. -/
def packAux (max_chars : Nat) (pref : List String) :
    List (Option String × List String) → List String → Nat → List String
  | [], buf, _ =>
    if buf.isEmpty then [] else [pyStrip ⟨joinNLL (buf.map String.data)⟩]
  | u :: rest, buf, len =>
    if buf.isEmpty then
      packAux max_chars pref rest (pySplitlines (secText pref u)) (secText pref u).length
    else if len + (secText pref u).length + 1 ≤ max_chars then
      packAux max_chars pref rest (buf ++ pySplitlines (secText pref u))
        (len + (secText pref u).length + 1)
    else
      pyStrip ⟨joinNLL (buf.map String.data)⟩
        :: packAux max_chars pref rest (pySplitlines (secText pref u)) (secText pref u).length

/-- `pack_sections(sections, prefix)` from `chunk.py`. -/
def pack_sections (max_chars : Nat) (sections : List (Option String × List String))
    (pref : List String) : List String :=
  packAux max_chars pref sections [] 0

/-- The paragraph fallback `[(None, [p]) for p in "\n".join(body).split("\n\n") if p.strip()]`. -/
def paragraphs (body : List String) : List (Option String × List String) :=
  ((split2NL (joinNLL (body.map String.data))).filter (fun p => !(stripL p).isEmpty)).map
    (fun p => ((none : Option String), [(⟨p⟩ : String)]))

/-- Processing of one H2 section in the main loop of
`split_into_hierarchical_chunks` (steps 1–3 of the source), with `basePref`
the `[h1] if h1 else []` prefix: emit the section whole if its rendering
(`h2_text = make_prefixed_chunk(h2_prefix, h2_body)`, i.e. `secText basePref u`)
fits, otherwise descend to H3 sections; an overflowing H3 section is
paragraph-packed immediately under its own H3 prefix, the fitting ones are
greedily merged afterwards under the H2 prefix. -/
def processH2 (max_chars : Nat) (basePref : List String)
    (u : Option String × List String) : List String :=
  if (secText basePref u).length ≤ max_chars then [secText basePref u]
  else if (sectionize u.2 "### ").isEmpty then
    pack_sections max_chars (paragraphs u.2) (basePref ++ titleList u.1)
  else
    ((sectionize u.2 "### ").filter (fun v =>
        max_chars < (secText (basePref ++ titleList u.1) v).length)).flatMap
      (fun v => pack_sections max_chars (paragraphs v.2)
        (basePref ++ titleList u.1 ++ titleList v.1))
    ++ pack_sections max_chars
        ((sectionize u.2 "### ").filter (fun v =>
          (secText (basePref ++ titleList u.1) v).length ≤ max_chars))
        (basePref ++ titleList u.1)

/-- `split_into_hierarchical_chunks(doc_location, text, max_chars)`.  The
source computes `h1 = f"Document location: [{loc}]({loc})\n\n" + h1` before
the whole-file short-circuit; when no line starts with `"# "` the right-hand
`h1` is `None` and the `+` raises `TypeError`, modelled as `Except.error`. -/
def split_into_hierarchical_chunks (doc_location text : String) (max_chars : Nat) :
    Except String (List String) :=
  match (pySplitlines text).find? (fun ln => pyStartsWith ln "# ") with
  | none => Except.error "TypeError"
  | some ln =>
    if text.length ≤ max_chars then Except.ok [pyStrip text]
    else
      Except.ok ((sectionize (pySplitlines text) "## ").flatMap
        (processH2 max_chars
          (if ("Document location: [" ++ doc_location ++ "](" ++ doc_location
              ++ ")\n\n" ++ pyStrip ln).data.isEmpty then []
           else ["Document location: [" ++ doc_location ++ "](" ++ doc_location
              ++ ")\n\n" ++ pyStrip ln])))

/-! ### The scheduler (`load_progress`, `save_progress`, `main`) -/

/-- `Path(p).name`: the component after the last `/`. -/
def basename (p : String) : String := ⟨(p.data.reverse.takeWhile (· ≠ '/')).reverse⟩

/-- `load_progress()`: the parsed checkpoint array if the file exists
(`none` models a missing file), mapped to base filenames; the Python set is
modelled as a duplicate-free list. -/
def load_progress (file : Option (List String)) : List String :=
  match file with
  | none => []
  | some done => (done.map basename).dedup

/-- Strict code-point lexicographic order on character lists. -/
def lexLt : List Char → List Char → Bool
  | [], [] => false
  | [], _ :: _ => true
  | _ :: _, [] => false
  | c :: cs, d :: ds => c.toNat < d.toNat || (c = d && lexLt cs ds)

/-- Code-point insertion used to model Python `sorted` on strings. -/
def strInsert (a : String) : List String → List String
  | [] => [a]
  | b :: r => if lexLt a.data b.data || a == b then a :: b :: r else b :: strInsert a r

/-- Python `sorted` on a list of strings (code-point lexicographic order). -/
def strSort : List String → List String
  | [] => []
  | a :: r => strInsert a (strSort r)

/-- `save_progress(done)`: the JSON array written, i.e. `sorted({Path(p).name for p in done})`. -/
def save_progress (done : List String) : List String :=
  strSort (done.map basename).dedup

/-- `files_to_process`: `[p for p in all_files if Path(p).name not in done_filenames]`. -/
def files_to_process (all_files done : List String) : List String :=
  all_files.filter (fun p => !(done.contains (basename p)))

/-- The completion loop of `main`: `as_completed` yields results in arrival
order (`some name` for a completed document, `none` for a task whose
`fut.result()` re-raises).  Each success is added to the progress set and
checkpointed; a raised exception propagates and aborts the loop, leaving the
progress set (and the checkpoint file) as last saved. -/
def completion_loop : List (Option String) → List String → Except (List String) (List String)
  | [], done => Except.ok done
  | none :: _, done => Except.error done
  | some n :: rest, done =>
    completion_loop rest
      (if done.contains (basename n) then done else done ++ [basename n])

/-- The progress set when `main` terminates (normally or by a propagated
task exception). -/
def final_progress (arr : List (Option String)) (done : List String) : List String :=
  match completion_loop arr done with
  | Except.ok d => d
  | Except.error d => d

/-- Adding a batch of completed names to the progress set, in order. -/
def addAll (done : List String) (ns : List String) : List String :=
  ns.foldl (fun d n => if d.contains (basename n) then d else d ++ [basename n]) done

/-! ### Concrete inputs used by counterexamples and witnesses -/

/-- A run of `n` copies of the character `c`. -/
def charRun (c : Char) (n : Nat) : String := ⟨List.replicate n c⟩

/-- The example-scenario input of the spec (claim C2). -/
def c2text : String := "# Title\n\n## Intro\nShort body.\n\n## Details\n" ++ charRun 'x' 6000

/-- The synthesized location-plus-title line for `doc_location = "L"`,
level-1 heading `# Title`. -/
def h1L : String := "Document location: [L](L)\n\n# Title"

/-- The synthesized location-plus-title line for `doc_location = "D"`,
level-1 heading `# T`. -/
def h1D : String := "Document location: [D](D)\n\n# T"

/-- Input whose only paragraph fits the bound on its own but overflows once
the header prefix is prepended (claim C5). -/
def c5text : String := "# T\n## A\n" ++ charRun 'p' 48

/-- Input with two small fitting H3 sections followed by an oversized one,
so the fitting pair is merged by `pack_sections` (claims C6 and C7). -/
def c7text : String := "# T\n## A\n### B\nbbb\n### C\nccc\n### D\n" ++ charRun 'd' 200

/-- Chunk 0 actually produced on the C2 scenario input: the leading pre-`##`
segment, with `# Title` present twice (once absorbed into the synthesized
location line, once as a body line). -/
def c2chunk0 : String := "Document location: [L](L)\n\n# Title\n# Title"

/-- Chunk 1 actually produced on the C2 scenario input. -/
def c2chunk1 : String := "Document location: [L](L)\n\n# Title\n## Intro\nShort body."

/-- Chunk 2 actually produced on the C2 scenario input: the oversized
`## Details` section. -/
def c2chunk2 : String := "Document location: [L](L)\n\n# Title\n## Details\n" ++ charRun 'x' 6000

/-- Chunk 0 produced on the `c5text` and `c7text` inputs. -/
def dTitleChunk : String := "Document location: [D](D)\n\n# T\n# T"

/-- The oversized chunk produced on `c5text`: header prefix plus a 48-character
paragraph; the paragraph alone fits the bound of 50, the chunk does not. -/
def c5chunk1 : String := "Document location: [D](D)\n\n# T\n## A\n" ++ charRun 'p' 48

/-- The oversized `### D` chunk produced on `c7text`. -/
def c7chunkD : String := "Document location: [D](D)\n\n# T\n## A\n### D\n" ++ charRun 'd' 200

/-- The merged chunk produced on `c7text`: the renderings of the two fitting
`### B` and `### C` units concatenated, each carrying the full header prefix. -/
def c7chunkM : String :=
  "Document location: [D](D)\n\n# T\n## A\n### B\nbbb\nDocument location: [D](D)\n\n# T\n## A\n### C\nccc"

/-- Is a line a Markdown heading-marker line (levels 1–3)? -/
def isHeaderLine (l : String) : Bool :=
  pyStartsWith l "# " || pyStartsWith l "## " || pyStartsWith l "### "

/-- The non-header-marker lines of a text, in order (claim C6's source side). -/
def keptLines (text : String) : List String :=
  (pySplitlines text).filter (fun l => !isHeaderLine l)

/-- All lines of all chunks, in emission order (claim C6's output side). -/
def chunkLines (cs : List String) : List String := cs.flatMap pySplitlines

/-- Reinserting the (trimmed) titles into the bodies of a `sectionize`
result (claim C9's reconstruction). -/
def reconstructSections (ss : List (Option String × List String)) : List String :=
  ss.flatMap (fun s => (match s.1 with | some t => [t] | none => []) ++ s.2)

/-- The trimmed non-blank members of a list of lines (coverage bookkeeping). -/
def coreL (ls : List (List Char)) : List (List Char) :=
  (ls.map stripL).filter (fun l => !l.isEmpty)

/-- The trimmed non-blank lines of a text (coverage bookkeeping). -/
def coreC (cs : List Char) : List (List Char) := coreL (splitlinesL cs)

/-! ### Toolkit: `strip` -/

lemma lstripL_cons_ws {c : Char} (hc : pyWs c = true) (l : List Char) :
    lstripL (c :: l) = lstripL l := by
  simp [lstripL, List.dropWhile_cons, hc]

lemma rstripL_snoc_ws {c : Char} (hc : pyWs c = true) (l : List Char) :
    rstripL (l ++ [c]) = rstripL l := by
  simp [rstripL, List.reverse_append, List.dropWhile_cons, hc]

lemma stripL_snoc_ws {c : Char} (hc : pyWs c = true) (l : List Char) :
    stripL (l ++ [c]) = stripL l := by
  unfold stripL
  rw [rstripL_snoc_ws hc]

lemma lstripL_eq_nil_iff {l : List Char} :
    lstripL l = [] ↔ ∀ x ∈ l, pyWs x = true := by
  simp [lstripL, List.dropWhile_eq_nil_iff]

lemma rstripL_eq_nil_iff {l : List Char} :
    rstripL l = [] ↔ ∀ x ∈ l, pyWs x = true := by
  simp [rstripL, List.dropWhile_eq_nil_iff]

lemma mem_rstripL {l : List Char} {x : Char} (hx : x ∈ rstripL l) : x ∈ l := by
  simp only [rstripL, List.mem_reverse] at hx
  exact List.mem_reverse.mp ((List.dropWhile_sublist pyWs).mem hx)

lemma stripL_eq_nil_iff {l : List Char} :
    stripL l = [] ↔ ∀ x ∈ l, pyWs x = true := by
  unfold stripL
  rw [lstripL_eq_nil_iff]
  constructor
  · intro h x hx
    by_cases hws : pyWs x = true
    · exact hws
    · exfalso
      have hx' : x ∈ l.reverse := List.mem_reverse.mpr hx
      have hmem : x ∈ l.reverse.dropWhile pyWs := by
        have hsplit := List.takeWhile_append_dropWhile (p := pyWs) (l := l.reverse)
        rcases List.mem_append.mp (hsplit ▸ hx') with h1 | h2
        · exact absurd (List.mem_takeWhile_imp h1) hws
        · exact h2
      have hmem2 : x ∈ rstripL l := by
        simp only [rstripL, List.mem_reverse]
        exact hmem
      exact hws (h x hmem2)
  · intro h x hx
    exact h x (mem_rstripL hx)

lemma head_dropWhile_not {α : Type} {p : α → Bool} :
    ∀ {l : List α} {a : α}, ((l.dropWhile p).head? = some a) → p a = false := by
  intro l
  induction l with
  | nil => intro a h; simp at h
  | cons x t ih =>
    intro a h
    rw [List.dropWhile_cons] at h
    by_cases hp : p x = true
    · rw [if_pos hp] at h
      exact ih h
    · rw [if_neg hp] at h
      simp only [List.head?_cons, Option.some.injEq] at h
      rw [← h]
      exact Bool.eq_false_iff.mpr hp

lemma getLast_dropWhile_ne_nil {α : Type} {p : α → Bool} :
    ∀ {l : List α}, l.dropWhile p ≠ [] → (l.dropWhile p).getLast? = l.getLast? := by
  intro l
  induction l with
  | nil => intro h; simp at h
  | cons x t ih =>
    intro h
    rw [List.dropWhile_cons]
    by_cases hp : p x = true
    · rw [List.dropWhile_cons, if_pos hp] at h
      rw [if_pos hp, ih h]
      have ht : t ≠ [] := by
        intro he
        exact h (by simp [he])
      cases t with
      | nil => exact absurd rfl ht
      | cons y t' => simp [List.getLast?_cons_cons]
    · rw [if_neg hp]

lemma stripL_head_not_ws {l : List Char} {a : Char}
    (h : (stripL l).head? = some a) : pyWs a = false :=
  head_dropWhile_not h

lemma rstripL_getLast_not_ws {l : List Char} {a : Char}
    (h : (rstripL l).getLast? = some a) : pyWs a = false := by
  unfold rstripL at h
  rw [List.getLast?_reverse] at h
  exact head_dropWhile_not h

lemma stripL_getLast_not_ws {l : List Char} {a : Char}
    (h : (stripL l).getLast? = some a) : pyWs a = false := by
  unfold stripL lstripL at h
  have hne : (rstripL l).dropWhile pyWs ≠ [] := by
    intro hh
    rw [hh] at h
    simp at h
  rw [getLast_dropWhile_ne_nil hne] at h
  exact rstripL_getLast_not_ws h

lemma lstripL_eq_self {l : List Char}
    (h : ∀ a, l.head? = some a → pyWs a = false) : lstripL l = l := by
  cases l with
  | nil => rfl
  | cons x t =>
    have := h x rfl
    simp [lstripL, List.dropWhile_cons, this]

lemma rstripL_eq_self {l : List Char}
    (h : ∀ a, l.getLast? = some a → pyWs a = false) : rstripL l = l := by
  unfold rstripL
  have : l.reverse.dropWhile pyWs = l.reverse := by
    cases hr : l.reverse with
    | nil => rfl
    | cons x t =>
      have hx : l.getLast? = some x := by
        rw [← List.head?_reverse, hr]
        rfl
      simp [List.dropWhile_cons, h x hx]
  rw [this, List.reverse_reverse]

lemma stripL_eq_self {l : List Char}
    (hh : ∀ a, l.head? = some a → pyWs a = false)
    (ht : ∀ a, l.getLast? = some a → pyWs a = false) : stripL l = l := by
  unfold stripL
  rw [rstripL_eq_self ht]
  exact lstripL_eq_self hh

lemma stripL_idem (l : List Char) : stripL (stripL l) = stripL l :=
  stripL_eq_self (fun _ h => stripL_head_not_ws h) (fun _ h => stripL_getLast_not_ws h)

lemma stripL_length_le (l : List Char) : (stripL l).length ≤ l.length := by
  have h1 : (stripL l).length ≤ (rstripL l).length := by
    unfold stripL lstripL
    exact (List.dropWhile_sublist pyWs).length_le
  have h2 : (rstripL l).length ≤ l.length := by
    unfold rstripL
    rw [List.length_reverse]
    calc (l.reverse.dropWhile pyWs).length
        ≤ l.reverse.length := (List.dropWhile_sublist pyWs).length_le
      _ = l.length := List.length_reverse l
  exact le_trans h1 h2

lemma rstripL_cons_of_ne_nil {c : Char} {l : List Char} (h : rstripL l ≠ []) :
    rstripL (c :: l) = c :: rstripL l := by
  unfold rstripL at h ⊢
  rw [List.reverse_cons, List.dropWhile_append]
  have hne : (l.reverse.dropWhile pyWs).isEmpty = false := by
    rw [Bool.eq_false_iff]
    intro he
    rw [List.isEmpty_eq_true] at he
    exact h (by rw [he]; rfl)
  rw [hne]
  simp [List.reverse_append]

lemma stripL_cons_ws {c : Char} (hc : pyWs c = true) (l : List Char) :
    stripL (c :: l) = stripL l := by
  unfold stripL
  by_cases h : rstripL l = []
  · have h2 : rstripL (c :: l) = [] := by
      rw [rstripL_eq_nil_iff] at h ⊢
      intro x hx
      rcases List.mem_cons.mp hx with rfl | hx'
      · exact hc
      · exact h x hx'
    rw [h, h2]
  · rw [rstripL_cons_of_ne_nil h, lstripL_cons_ws hc]

/-! ### Toolkit: `splitlines` and `join` -/

lemma splitAux_eq_nil_iff : ∀ (cs acc : List Char),
    splitAux cs acc = [] ↔ cs = [] ∧ acc = [] := by
  intro cs
  induction cs with
  | nil =>
    intro acc
    by_cases h : acc = [] <;> simp [splitAux, h]
  | cons c t ih =>
    intro acc
    by_cases hc : c = '\n' <;> simp [splitAux, hc, ih]

lemma splitAux_append_nl : ∀ (xs ys acc : List Char),
    splitAux (xs ++ '\n' :: ys) acc = splitAux (xs ++ ['\n']) acc ++ splitAux ys [] := by
  intro xs
  induction xs with
  | nil =>
    intro ys acc
    show splitAux ('\n' :: ys) acc = splitAux ['\n'] acc ++ splitAux ys []
    rw [splitAux, if_pos rfl, splitAux, if_pos rfl]
    show _ = (acc.reverse :: splitAux [] []) ++ _
    rw [splitAux, if_pos rfl]
    rfl
  | cons c t ih =>
    intro ys acc
    by_cases hc : c = '\n'
    · rw [List.cons_append, List.cons_append, splitAux, if_pos hc, splitAux, if_pos hc,
        ih, List.cons_append]
    · rw [List.cons_append, List.cons_append, splitAux, if_neg hc, splitAux, if_neg hc, ih]

lemma splitAux_no_nl : ∀ (cs : List Char), (∀ x ∈ cs, x ≠ '\n') → ∀ acc,
    splitAux cs acc = if acc = [] ∧ cs = [] then [] else [acc.reverse ++ cs] := by
  intro cs
  induction cs with
  | nil =>
    intro _ acc
    by_cases h : acc = [] <;> simp [splitAux, h]
  | cons c t ih =>
    intro h acc
    have hc : c ≠ '\n' := h c (List.mem_cons_self c t)
    have ht : ∀ x ∈ t, x ≠ '\n' := fun x hx => h x (List.mem_cons_of_mem c hx)
    rw [splitAux, if_neg hc, ih ht (c :: acc)]
    have h1 : ¬(c :: acc = [] ∧ t = []) := by simp
    have h2 : ¬(acc = [] ∧ c :: t = []) := by simp
    rw [if_neg h1, if_neg h2]
    simp

lemma splitlinesL_replicate {c : Char} (hc : c ≠ '\n') (n : Nat) :
    splitlinesL (List.replicate n c) = if n = 0 then [] else [List.replicate n c] := by
  unfold splitlinesL
  rw [splitAux_no_nl _ (fun x hx => by rw [List.eq_of_mem_replicate hx]; exact hc)]
  simp [List.replicate_eq_nil_iff]

lemma mem_splitAux_no_nl : ∀ (cs : List Char) {acc l : List Char},
    l ∈ splitAux cs acc → (∀ x ∈ acc, x ≠ '\n') → ∀ x ∈ l, x ≠ '\n' := by
  intro cs
  induction cs with
  | nil =>
    intro acc l hl hacc
    by_cases h : acc = []
    · simp [splitAux, h] at hl
    · simp [splitAux, h] at hl
      subst hl
      intro x hx
      exact hacc x (List.mem_reverse.mp hx)
  | cons c t ih =>
    intro acc l hl hacc
    by_cases hc : c = '\n'
    · simp only [splitAux, if_pos hc] at hl
      rcases List.mem_cons.mp hl with rfl | hl'
      · intro x hx
        exact hacc x (List.mem_reverse.mp hx)
      · exact ih hl' (by intro x hx; simp at hx)
    · simp only [splitAux, if_neg hc] at hl
      refine ih hl ?_
      intro x hx
      rcases List.mem_cons.mp hx with rfl | hx'
      · exact hc
      · exact hacc x hx'

lemma joinNLL_singleton (x : List Char) : joinNLL [x] = x := by
  simp [joinNLL]

lemma joinNLL_cons_ne {xs : List (List Char)} (x : List Char) (h : xs ≠ []) :
    joinNLL (x :: xs) = x ++ '\n' :: joinNLL xs := by
  rw [joinNLL]
  simp [h]

lemma joinNLL_append {a b : List (List Char)} (ha : a ≠ []) (hb : b ≠ []) :
    joinNLL (a ++ b) = joinNLL a ++ '\n' :: joinNLL b := by
  induction a with
  | nil => exact absurd rfl ha
  | cons x t ih =>
    cases t with
    | nil =>
      rw [List.singleton_append, joinNLL_cons_ne x hb, joinNLL_singleton]
    | cons y t' =>
      have ht : y :: t' ≠ [] := by simp
      have htb : (y :: t') ++ b ≠ [] := by simp
      rw [List.cons_append, joinNLL_cons_ne x htb, ih ht, joinNLL_cons_ne x ht]
      simp

lemma length_joinNLL_append_le (a b : List (List Char)) :
    (joinNLL (a ++ b)).length ≤ (joinNLL a).length + (joinNLL b).length + 1 := by
  rcases List.eq_nil_or_concat a with rfl | _
  · simp [joinNLL]
  · rcases List.eq_nil_or_concat b with rfl | _
    · simp [joinNLL]
    · have ha : a ≠ [] := by rintro rfl; simp_all
      have hb : b ≠ [] := by rintro rfl; simp_all
      rw [joinNLL_append ha hb]
      simp
      omega

lemma length_joinNLL_splitAux_le : ∀ (cs acc : List Char),
    (joinNLL (splitAux cs acc)).length ≤ acc.length + cs.length := by
  intro cs
  induction cs with
  | nil =>
    intro acc
    by_cases h : acc = [] <;> simp [splitAux, h, joinNLL]
  | cons c t ih =>
    intro acc
    by_cases hc : c = '\n'
    · simp only [splitAux, if_pos hc]
      by_cases ht : splitAux t [] = []
      · rw [ht, joinNLL_singleton]
        simp
      · rw [joinNLL_cons_ne _ ht]
        have := ih []
        simp only [List.length_nil] at this
        simp
        omega
    · simp only [splitAux, if_neg hc]
      have := ih (c :: acc)
      simp at this
      simp
      omega

lemma joinNLL_splitAux_eq : ∀ (cs acc : List Char), cs.getLast? ≠ some '\n' →
    joinNLL (splitAux cs acc) = acc.reverse ++ cs := by
  intro cs
  induction cs with
  | nil =>
    intro acc _
    by_cases h : acc = [] <;> simp [splitAux, h, joinNLL]
  | cons c t ih =>
    intro acc hlast
    by_cases hc : c = '\n'
    · have ht : t ≠ [] := by
        rintro rfl
        subst hc
        simp at hlast
      have ht2 : t.getLast? ≠ some '\n' := by
        cases t with
        | nil => exact absurd rfl ht
        | cons y t' => rw [List.getLast?_cons_cons] at hlast; exact hlast
      have hne : splitAux t [] ≠ [] := by
        rw [Ne, splitAux_eq_nil_iff]
        simp [ht]
      simp only [splitAux, if_pos hc]
      rw [joinNLL_cons_ne _ hne, ih [] ht2]
      subst hc
      simp
    · have ht2 : t.getLast? ≠ some '\n' := by
        cases t with
        | nil => simp
        | cons y t' => rw [List.getLast?_cons_cons] at hlast; exact hlast
      simp only [splitAux, if_neg hc]
      rw [ih (c :: acc) ht2]
      simp

/-! ### Toolkit: trimmed non-blank lines (`coreC`) -/

lemma coreL_nil : coreL [] = [] := rfl

lemma coreL_cons (x : List Char) (ls : List (List Char)) :
    coreL (x :: ls) = (if stripL x = [] then [] else [stripL x]) ++ coreL ls := by
  by_cases h : stripL x = []
  · simp [coreL, List.filter_cons, h]
  · simp [coreL, List.filter_cons, h]

lemma coreL_append (a b : List (List Char)) : coreL (a ++ b) = coreL a ++ coreL b := by
  simp [coreL, List.filter_append]

lemma coreL_splitAux_congr : ∀ (cs a b : List Char),
    (∀ t : List Char, stripL (a.reverse ++ t) = stripL (b.reverse ++ t)) →
    coreL (splitAux cs a) = coreL (splitAux cs b) := by
  intro cs
  induction cs with
  | nil =>
    intro a b hab
    have h0 := hab []
    simp only [List.append_nil] at h0
    by_cases ha : a = [] <;> by_cases hb : b = []
    · simp [splitAux, ha, hb]
    · subst ha
      have hb0 : stripL b.reverse = [] := by
        rw [← h0]
        rfl
      simp [splitAux, hb, coreL_cons, hb0]
    · subst hb
      have ha0 : stripL a.reverse = [] := by
        rw [h0]
        rfl
      simp [splitAux, ha, coreL_cons, ha0]
    · simp only [splitAux, if_neg ha, if_neg hb]
      rw [coreL_cons, coreL_cons, h0]
  | cons c t ih =>
    intro a b hab
    by_cases hc : c = '\n'
    · rw [splitAux, if_pos hc, splitAux, if_pos hc, coreL_cons, coreL_cons]
      have h0 := hab []
      simp only [List.append_nil] at h0
      rw [h0, ih [] [] (fun _ => rfl)]
    · rw [splitAux, if_neg hc, splitAux, if_neg hc]
      apply ih
      intro t'
      have := hab (c :: t')
      simpa [List.reverse_cons, List.append_assoc] using this

lemma stripL_nil : stripL [] = [] := rfl

lemma coreL_splitAux_close : ∀ (xs acc : List Char),
    coreL (splitAux (xs ++ ['\n']) acc) = coreL (splitAux xs acc) := by
  intro xs
  induction xs with
  | nil =>
    intro acc
    have hL : splitAux ['\n'] acc = [acc.reverse] := by simp [splitAux]
    show coreL (splitAux ['\n'] acc) = coreL (splitAux [] acc)
    rw [hL]
    by_cases h : acc = []
    · subst h
      have hR : splitAux ([] : List Char) [] = [] := by simp [splitAux]
      rw [hR, coreL_cons, coreL_nil]
      simp [stripL_nil]
    · have hR : splitAux ([] : List Char) acc = [acc.reverse] := by simp [splitAux, h]
      rw [hR]
  | cons c t ih =>
    intro acc
    by_cases hc : c = '\n'
    · rw [List.cons_append, splitAux, if_pos hc, splitAux, if_pos hc,
        coreL_cons, coreL_cons, ih []]
    · rw [List.cons_append, splitAux, if_neg hc, splitAux, if_neg hc, ih]

lemma coreC_append_nl (a b : List Char) : coreC (a ++ '\n' :: b) = coreC a ++ coreC b := by
  unfold coreC splitlinesL
  rw [splitAux_append_nl, coreL_append, coreL_splitAux_close]

lemma coreC_cons_nl (b : List Char) : coreC ('\n' :: b) = coreC b := by
  have := coreC_append_nl [] b
  simpa using this

lemma coreC_join : ∀ (ls : List (List Char)), coreC (joinNLL ls) = ls.flatMap coreC := by
  intro ls
  induction ls with
  | nil => rfl
  | cons x xs ih =>
    cases xs with
    | nil => simp [joinNLL_singleton]
    | cons y t =>
      rw [joinNLL_cons_ne x (by simp), coreC_append_nl, ih]
      simp

lemma coreC_cons_ws {c : Char} (hc : pyWs c = true) (cs : List Char) :
    coreC (c :: cs) = coreC cs := by
  by_cases hnl : c = '\n'
  · subst hnl
    exact coreC_cons_nl cs
  · unfold coreC splitlinesL
    rw [splitAux, if_neg hnl]
    have : coreL (splitAux cs [c]) = coreL (splitAux cs []) := by
      apply coreL_splitAux_congr
      intro t
      simpa using stripL_cons_ws hc t
    exact this

lemma coreL_splitAux_snoc_ws {c : Char} (hc : pyWs c = true) (hnl : c ≠ '\n') :
    ∀ (cs acc : List Char), coreL (splitAux (cs ++ [c]) acc) = coreL (splitAux cs acc) := by
  intro cs
  induction cs with
  | nil =>
    intro acc
    have hL : splitAux [c] acc = [acc.reverse ++ [c]] := by
      simp [splitAux, hnl]
    show coreL (splitAux [c] acc) = coreL (splitAux [] acc)
    rw [hL]
    by_cases h : acc = []
    · subst h
      have hR : splitAux ([] : List Char) [] = [] := by simp [splitAux]
      rw [hR, coreL_cons, coreL_nil]
      have hstrip : stripL (([] : List Char).reverse ++ [c]) = [] := by
        simp only [List.reverse_nil, List.nil_append]
        rw [stripL_eq_nil_iff]
        intro x hx
        rw [List.mem_singleton.mp hx]
        exact hc
      rw [if_pos hstrip]
      rfl
    · have hR : splitAux ([] : List Char) acc = [acc.reverse] := by simp [splitAux, h]
      rw [hR, coreL_cons, coreL_cons, stripL_snoc_ws hc]
  | cons d t ih =>
    intro acc
    by_cases hd : d = '\n'
    · rw [List.cons_append, splitAux, if_pos hd, splitAux, if_pos hd,
        coreL_cons, coreL_cons, ih []]
    · rw [List.cons_append, splitAux, if_neg hd, splitAux, if_neg hd, ih]

lemma coreC_snoc_ws {c : Char} (hc : pyWs c = true) (cs : List Char) :
    coreC (cs ++ [c]) = coreC cs := by
  by_cases hnl : c = '\n'
  · subst hnl
    unfold coreC splitlinesL
    exact coreL_splitAux_close cs []
  · unfold coreC splitlinesL
    exact coreL_splitAux_snoc_ws hc hnl cs []

lemma coreC_lstrip (cs : List Char) : coreC (lstripL cs) = coreC cs := by
  unfold lstripL
  induction cs with
  | nil => rfl
  | cons c t ih =>
    rw [List.dropWhile_cons]
    by_cases h : pyWs c = true
    · rw [if_pos h, coreC_cons_ws h, ih]
    · rw [if_neg h]

lemma coreC_rstrip (cs : List Char) : coreC (rstripL cs) = coreC cs := by
  have key : ∀ r : List Char, coreC ((r.dropWhile pyWs).reverse) = coreC r.reverse := by
    intro r
    induction r with
    | nil => rfl
    | cons c t ih =>
      rw [List.dropWhile_cons]
      by_cases h : pyWs c = true
      · rw [if_pos h, ih, List.reverse_cons, coreC_snoc_ws h]
      · rw [if_neg h]
  have h2 := key cs.reverse
  rw [List.reverse_reverse] at h2
  exact h2

lemma coreC_strip (cs : List Char) : coreC (stripL cs) = coreC cs := by
  unfold stripL
  rw [coreC_lstrip, coreC_rstrip]

lemma coreC_of_strip_nil {cs : List Char} (h : stripL cs = []) : coreC cs = [] := by
  rw [← coreC_strip, h]
  rfl

lemma coreC_no_nl {cs : List Char} (h : ∀ x ∈ cs, x ≠ '\n') :
    coreC cs = if stripL cs = [] then [] else [stripL cs] := by
  unfold coreC splitlinesL
  rw [splitAux_no_nl cs h []]
  by_cases hcs : cs = []
  · subst hcs
    simp [coreL, stripL_nil]
  · have hne : ¬(([] : List Char) = [] ∧ cs = []) := by simp [hcs]
    rw [if_neg hne]
    simp only [List.reverse_nil, List.nil_append]
    rw [coreL_cons, coreL_nil, List.append_nil]

lemma flatMap_coreC_lines : ∀ (ls : List (List Char)),
    (∀ l ∈ ls, ∀ x ∈ l, x ≠ '\n') → ls.flatMap coreC = coreL ls := by
  intro ls
  induction ls with
  | nil => intro _; rfl
  | cons x t ih =>
    intro h
    rw [List.flatMap_cons, coreL_cons, ih (fun l hl => h l (List.mem_cons_of_mem x hl)),
      coreC_no_nl (h x (List.mem_cons_self x t))]

lemma coreC_splitlines (cs : List Char) :
    (splitlinesL cs).flatMap coreC = coreC cs := by
  have h : ∀ l ∈ splitlinesL cs, ∀ x ∈ l, x ≠ '\n' := by
    intro l hl
    exact mem_splitAux_no_nl cs hl (by simp)
  rw [flatMap_coreC_lines _ h]
  rfl

/-! ### Toolkit: paragraph splitting (`split2NL`) -/

lemma joinNN_singleton (x : List Char) : joinNN [x] = x := by
  simp [joinNN]

lemma joinNN_cons_ne {xs : List (List Char)} (x : List Char) (h : xs ≠ []) :
    joinNN (x :: xs) = x ++ '\n' :: '\n' :: joinNN xs := by
  rw [joinNN]
  simp [h]

lemma split2Aux_ne_nil : ∀ (cs acc : List Char), split2Aux cs acc ≠ [] := by
  intro cs
  induction cs with
  | nil => intro acc; simp [split2Aux]
  | cons c t ih =>
    intro acc
    cases t with
    | nil => simp [split2Aux]
    | cons c' rest =>
      rw [split2Aux]
      by_cases h : (c = '\n' && c' = '\n') = true
      · rw [if_pos h]
        simp
      · rw [if_neg h]
        exact ih (c :: acc)

lemma joinNN_split2Aux_bound : ∀ (n : Nat) (cs acc : List Char), cs.length ≤ n →
    joinNN (split2Aux cs acc) = acc.reverse ++ cs := by
  intro n
  induction n with
  | zero =>
    intro cs acc hlen
    have hnil : cs = [] := List.eq_nil_of_length_eq_zero (Nat.le_zero.mp hlen)
    subst hnil
    simp [split2Aux, joinNN]
  | succ n ih =>
    intro cs acc hlen
    cases cs with
    | nil => simp [split2Aux, joinNN]
    | cons c t =>
      cases t with
      | nil => simp [split2Aux, joinNN]
      | cons c' rest =>
        rw [split2Aux]
        by_cases h : (c = '\n' && c' = '\n') = true
        · rw [if_pos h]
          have hr : rest.length ≤ n := by
            simp at hlen
            omega
          rw [joinNN_cons_ne _ (split2Aux_ne_nil rest []), ih rest [] hr]
          rcases Bool.and_eq_true_iff.mp h with ⟨h1, h2⟩
          simp at h1 h2
          subst h1
          subst h2
          simp
        · rw [if_neg h]
          have hr : (c' :: rest).length ≤ n := by
            simp at hlen ⊢
            omega
          rw [ih (c' :: rest) (c :: acc) hr]
          simp

lemma joinNN_split2NL (cs : List Char) : joinNN (split2NL cs) = cs := by
  have h := joinNN_split2Aux_bound cs.length cs [] le_rfl
  simpa using h

lemma coreC_joinNN : ∀ (ls : List (List Char)), coreC (joinNN ls) = ls.flatMap coreC := by
  intro ls
  induction ls with
  | nil => rfl
  | cons x xs ih =>
    cases xs with
    | nil => simp [joinNN_singleton]
    | cons y t =>
      rw [joinNN_cons_ne x (by simp), coreC_append_nl, coreC_cons_nl, ih]
      simp

lemma coreC_split2NL (cs : List Char) : (split2NL cs).flatMap coreC = coreC cs := by
  conv_rhs => rw [← joinNN_split2NL cs]
  rw [coreC_joinNN]

lemma hasDbl_snoc : ∀ (xs : List Char) (c : Char),
    hasDbl (xs ++ [c]) =
      (hasDbl xs || (decide (xs.getLast? = some '\n') && decide (c = '\n'))) := by
  intro xs
  induction xs with
  | nil => intro c; simp [hasDbl]
  | cons d t ih =>
    intro c
    cases t with
    | nil =>
      by_cases hd : d = '\n' <;> by_cases hc : c = '\n' <;> simp [hasDbl, hd, hc]
    | cons e t' =>
      rw [List.cons_append]
      show hasDbl (d :: e :: (t' ++ [c])) = _
      rw [hasDbl]
      rw [show e :: (t' ++ [c]) = (e :: t') ++ [c] from rfl, ih]
      show _ = (hasDbl (d :: e :: t') || _)
      rw [hasDbl, List.getLast?_cons_cons, Bool.or_assoc]

lemma split2Aux_no_dbl_bound : ∀ (n : Nat) (cs acc : List Char), cs.length ≤ n →
    hasDbl acc.reverse = false →
    (∀ hd, acc.head? = some hd → hd = '\n' → cs.head? ≠ some '\n') →
    ∀ p ∈ split2Aux cs acc, hasDbl p = false := by
  intro n
  induction n with
  | zero =>
    intro cs acc hlen h1 _ p hp
    have hnil : cs = [] := List.eq_nil_of_length_eq_zero (Nat.le_zero.mp hlen)
    subst hnil
    simp [split2Aux] at hp
    subst hp
    exact h1
  | succ n ih =>
    intro cs acc hlen h1 h2 p hp
    cases cs with
    | nil =>
      simp [split2Aux] at hp
      subst hp
      exact h1
    | cons c t =>
      cases t with
      | nil =>
        simp only [split2Aux, List.mem_singleton] at hp
        subst hp
        rw [List.reverse_cons, hasDbl_snoc, h1, List.getLast?_reverse]
        by_cases hc : c = '\n'
        · have hacc : ¬ acc.head? = some '\n' := by
            intro hh
            exact (h2 '\n' hh rfl) (by simp [hc])
          simp [hacc]
        · simp [hc]
      | cons c' rest =>
        rw [split2Aux] at hp
        by_cases h : (c = '\n' && c' = '\n') = true
        · rw [if_pos h] at hp
          rcases List.mem_cons.mp hp with rfl | hp'
          · exact h1
          · refine ih rest [] ?_ rfl ?_ p hp'
            · simp at hlen
              omega
            · intro hd hhd
              simp at hhd
        · rw [if_neg h] at hp
          refine ih (c' :: rest) (c :: acc) ?_ ?_ ?_ p hp
          · simp at hlen ⊢
            omega
          · rw [List.reverse_cons, hasDbl_snoc, h1, List.getLast?_reverse]
            by_cases hc : c = '\n'
            · have hacc : ¬ acc.head? = some '\n' := by
                intro hh
                exact (h2 '\n' hh rfl) (by simp [hc])
              simp [hacc]
            · simp [hc]
          · intro hd hhd hdnl hcon
            simp only [List.head?_cons, Option.some.injEq] at hhd hcon
            apply h
            rw [Bool.and_eq_true_iff]
            constructor
            · simp [hhd ▸ hdnl]
            · simp [hcon]

lemma split2NL_no_dbl {cs p : List Char} (hp : p ∈ split2NL cs) : hasDbl p = false := by
  refine split2Aux_no_dbl_bound cs.length cs [] le_rfl rfl ?_ p hp
  intro hd hhd
  simp at hhd

/-! ### Toolkit: `sectionize` -/

lemma startsWithL_mem : ∀ (p c : List Char), startsWithL p c = true → ∀ x ∈ p, x ∈ c := by
  intro p
  induction p with
  | nil => intro c _ x hx; simp at hx
  | cons a ps ih =>
    intro c h x hx
    cases c with
    | nil => simp [startsWithL] at h
    | cons b cs =>
      rw [startsWithL, Bool.and_eq_true_iff] at h
      have hab : a = b := by simpa using h.1
      rcases List.mem_cons.mp hx with rfl | hx'
      · rw [hab]
        exact List.mem_cons_self b cs
      · exact List.mem_cons_of_mem b (ih cs h.2 x hx')

lemma strip_ne_nil_of_startsWith {ln marker : String}
    (h : pyStartsWith ln marker = true) (hm : stripL marker.data ≠ []) :
    stripL ln.data ≠ [] := by
  intro hln
  apply hm
  rw [stripL_eq_nil_iff] at hln ⊢
  intro x hx
  exact hln x (startsWithL_mem marker.data ln.data h x hx)

lemma sectionizeAux_bodies (marker : String) : ∀ (lines : List String)
    (t : Option String) (b : List String),
    (sectionizeAux marker lines t b).flatMap (fun s => s.2)
      = b ++ lines.filter (fun ln => !(pyStartsWith ln marker)) := by
  intro lines
  induction lines with
  | nil =>
    intro t b
    rw [sectionizeAux]
    by_cases hg : (optTruthy t || !b.isEmpty) = true
    · rw [if_pos hg]
      simp
    · rw [if_neg hg]
      have hb : b = [] := by
        rcases Bool.or_eq_false_iff.mp (Bool.eq_false_iff.mpr hg) with ⟨_, h2⟩
        simpa using h2
      simp [hb]
  | cons ln rest ih =>
    intro t b
    rw [sectionizeAux]
    by_cases hm : pyStartsWith ln marker = true
    · rw [if_pos hm, List.flatMap_append, ih, List.filter_cons]
      simp only [hm]
      by_cases hg : (optTruthy t || !b.isEmpty) = true
      · rw [if_pos hg]
        simp
      · rw [if_neg hg]
        have hb : b = [] := by
          rcases Bool.or_eq_false_iff.mp (Bool.eq_false_iff.mpr hg) with ⟨_, h2⟩
          simpa using h2
        simp [hb]
    · rw [if_neg hm, ih, List.filter_cons]
      have hm' : pyStartsWith ln marker = false := Bool.eq_false_iff.mpr hm
      simp [hm']
  

lemma sectionizeAux_reconstruct {marker : String} (hm : stripL marker.data ≠ []) :
    ∀ (lines : List String) (t : Option String) (b : List String),
    (t = none ∨ optTruthy t = true) →
    reconstructSections (sectionizeAux marker lines t b)
      = (match t with | some s => [s] | none => []) ++ b
        ++ lines.map (fun ln => if pyStartsWith ln marker then pyStrip ln else ln) := by
  intro lines
  induction lines with
  | nil =>
    intro t b ht
    rw [sectionizeAux]
    by_cases hg : (optTruthy t || !b.isEmpty) = true
    · rw [if_pos hg]
      simp [reconstructSections]
    · rw [if_neg hg]
      rcases Bool.or_eq_false_iff.mp (Bool.eq_false_iff.mpr hg) with ⟨h1, h2⟩
      have hb : b = [] := by simpa using h2
      have htn : t = none := by
        rcases ht with h | h
        · exact h
        · rw [h] at h1
          exact absurd h1 (by simp)
      subst hb
      subst htn
      simp [reconstructSections]
  | cons ln rest ih =>
    intro t b ht
    rw [sectionizeAux]
    by_cases hml : pyStartsWith ln marker = true
    · rw [if_pos hml]
      have htruthy : optTruthy (some (pyStrip ln)) = true := by
        simp only [optTruthy, Bool.not_eq_true']
        rw [Bool.eq_false_iff]
        intro he
        exact (strip_ne_nil_of_startsWith hml hm) (List.isEmpty_eq_true.mp he)
      rw [reconstructSections, List.flatMap_append]
      have hrest := ih (some (pyStrip ln)) [] (Or.inr htruthy)
      rw [reconstructSections] at hrest
      rw [hrest]
      by_cases hg : (optTruthy t || !b.isEmpty) = true
      · rw [if_pos hg]
        simp [hml]
      · rw [if_neg hg]
        rcases Bool.or_eq_false_iff.mp (Bool.eq_false_iff.mpr hg) with ⟨h1, h2⟩
        have hb : b = [] := by simpa using h2
        have htn : t = none := by
          rcases ht with h | h
          · exact h
          · rw [h] at h1
            exact absurd h1 (by simp)
        subst hb
        subst htn
        simp [hml]
    · rw [if_neg hml, ih t (b ++ [ln]) ht]
      have hml' : pyStartsWith ln marker = false := Bool.eq_false_iff.mpr hml
      simp [hml']

lemma sectionizeAux_no_marker {marker : String} : ∀ (lines : List String)
    (t : Option String) (b : List String),
    (∀ l ∈ lines, pyStartsWith l marker = false) →
    sectionizeAux marker lines t b =
      if optTruthy t || !(b ++ lines).isEmpty then [(t, b ++ lines)] else [] := by
  intro lines
  induction lines with
  | nil =>
    intro t b _
    rw [sectionizeAux]
    simp
  | cons ln rest ih =>
    intro t b h
    have hln : pyStartsWith ln marker = false := h ln (List.mem_cons_self ln rest)
    rw [sectionizeAux, if_neg (by simp [hln]),
      ih t (b ++ [ln]) (fun l hl => h l (List.mem_cons_of_mem ln hl))]
    simp

/-! ### Toolkit: `pack_sections` -/

lemma string_length_mk (l : List Char) : (⟨l⟩ : String).length = l.length := rfl

lemma string_data_ne_nil {s : String} (h : s ≠ "") : s.data ≠ [] := by
  intro he
  exact h (String.ext he)

lemma pyStrip_idem (s : String) : pyStrip (pyStrip s) = pyStrip s :=
  String.ext (stripL_idem s.data)

lemma make_prefixed_chunk_stripped (pref body : List String) :
    pyStrip (make_prefixed_chunk pref body) = make_prefixed_chunk pref body :=
  pyStrip_idem _

lemma map_data_mk (ls : List (List Char)) :
    (ls.map (fun l => (⟨l⟩ : String))).map String.data = ls := by
  rw [List.map_map]
  show ls.map (fun l => l) = ls
  exact List.map_id ls

lemma map_data_pySplitlines (s : String) :
    (pySplitlines s).map String.data = splitlinesL s.data := by
  unfold pySplitlines
  exact map_data_mk _

lemma pySplitlines_flatMap_core (s : String) :
    (pySplitlines s).flatMap (fun l => coreC l.data) = coreC s.data := by
  unfold pySplitlines
  rw [List.flatMap_map]
  show (splitlinesL s.data).flatMap coreC = coreC s.data
  exact coreC_splitlines s.data

lemma joinNLL_pySplitlines {s : String} (hs : pyStrip s = s) :
    joinNLL ((pySplitlines s).map String.data) = s.data := by
  rw [map_data_pySplitlines]
  unfold splitlinesL
  rw [joinNLL_splitAux_eq s.data []]
  · rfl
  · intro hlast
    have h1 : s.data = stripL s.data := by
      conv_lhs => rw [← hs]
      rfl
    rw [h1] at hlast
    have := stripL_getLast_not_ws hlast
    simp [pyWs] at this

lemma roundtrip_strip_lines {s : String} (hs : pyStrip s = s) :
    pyStrip ⟨joinNLL ((pySplitlines s).map String.data)⟩ = s := by
  rw [joinNLL_pySplitlines hs]
  exact hs

lemma pySplitlines_ne_nil {s : String} (h : s ≠ "") : (pySplitlines s).isEmpty = false := by
  rw [Bool.eq_false_iff]
  intro he
  rw [List.isEmpty_eq_true] at he
  unfold pySplitlines at he
  rcases List.map_eq_nil_iff.mp he with h2
  unfold splitlinesL at h2
  rcases (splitAux_eq_nil_iff s.data []).mp h2 with ⟨h3, _⟩
  exact string_data_ne_nil h h3

lemma packAux_core (max_chars : Nat) (pref : List String) :
    ∀ (sections : List (Option String × List String)) (buf : List String) (len : Nat),
    (packAux max_chars pref sections buf len).flatMap (fun c => coreC c.data)
      = buf.flatMap (fun s => coreC s.data)
        ++ sections.flatMap (fun u => coreC (secText pref u).data) := by
  intro sections
  induction sections with
  | nil =>
    intro buf len
    rw [packAux]
    by_cases hb : buf.isEmpty = true
    · rw [if_pos hb]
      have hbuf : buf = [] := List.isEmpty_eq_true.mp hb
      subst hbuf
      simp
    · rw [if_neg hb]
      simp only [List.flatMap_cons, List.flatMap_nil, List.append_nil]
      show coreC (stripL (joinNLL (buf.map String.data))) = _
      rw [coreC_strip, coreC_join, List.flatMap_map]
  | cons u rest ih =>
    intro buf len
    rw [packAux]
    by_cases hb : buf.isEmpty = true
    · rw [if_pos hb]
      have hbuf : buf = [] := List.isEmpty_eq_true.mp hb
      subst hbuf
      rw [ih, pySplitlines_flatMap_core]
      simp
    · rw [if_neg hb]
      by_cases hfit : len + (secText pref u).length + 1 ≤ max_chars
      · rw [if_pos hfit, ih, List.flatMap_append, pySplitlines_flatMap_core]
        simp [List.append_assoc]
      · rw [if_neg hfit]
        simp only [List.flatMap_cons]
        rw [ih, pySplitlines_flatMap_core]
        show coreC (stripL (joinNLL (buf.map String.data))) ++ _ = _
        rw [coreC_strip, coreC_join, List.flatMap_map]

lemma pack_sections_core (max_chars : Nat)
    (sections : List (Option String × List String)) (pref : List String) :
    (pack_sections max_chars sections pref).flatMap (fun c => coreC c.data)
      = sections.flatMap (fun u => coreC (secText pref u).data) := by
  unfold pack_sections
  rw [packAux_core]
  simp

lemma secText_stripped (pref : List String) (u : Option String × List String) :
    pyStrip (secText pref u) = secText pref u :=
  make_prefixed_chunk_stripped _ _

lemma pyStrip_mk_data (l : List Char) : (pyStrip ⟨l⟩).data = stripL l := rfl

lemma pyStrip_data (s : String) : (pyStrip s).data = stripL s.data := rfl

lemma packAux_mem (max_chars : Nat) (pref : List String)
    (S0 : List (Option String × List String)) :
    ∀ (sections : List (Option String × List String)) (buf : List String) (len : Nat),
    (∀ u ∈ sections, u ∈ S0) →
    (joinNLL (buf.map String.data)).length ≤ len →
    (len ≤ max_chars ∨
      ∃ u ∈ S0, buf = pySplitlines (secText pref u) ∧ len = (secText pref u).length) →
    ∀ c ∈ packAux max_chars pref sections buf len,
      c.length ≤ max_chars ∨ ∃ u ∈ S0, c = secText pref u := by
  intro sections
  induction sections with
  | nil =>
    intro buf len _ hlen hstate c hc
    rw [packAux] at hc
    by_cases hb : buf.isEmpty = true
    · rw [if_pos hb] at hc
      simp at hc
    · rw [if_neg hb] at hc
      rw [List.mem_singleton] at hc
      subst hc
      rcases hstate with hle | ⟨u, hu, hbuf, _⟩
      · left
        calc (pyStrip ⟨joinNLL (buf.map String.data)⟩).length
            = (stripL (joinNLL (buf.map String.data))).length := rfl
          _ ≤ (joinNLL (buf.map String.data)).length := stripL_length_le _
          _ ≤ len := hlen
          _ ≤ max_chars := hle
      · right
        refine ⟨u, hu, ?_⟩
        subst hbuf
        exact roundtrip_strip_lines (secText_stripped pref u)
  | cons u rest ih =>
    intro buf len hsub hlen hstate c hc
    rw [packAux] at hc
    have hu0 : u ∈ S0 := hsub u (List.mem_cons_self u rest)
    have hrest : ∀ v ∈ rest, v ∈ S0 := fun v hv => hsub v (List.mem_cons_of_mem u hv)
    have hlen_new : (joinNLL ((pySplitlines (secText pref u)).map String.data)).length
        ≤ (secText pref u).length := by
      rw [map_data_pySplitlines]
      have h := length_joinNLL_splitAux_le (secText pref u).data []
      simpa using h
    by_cases hb : buf.isEmpty = true
    · rw [if_pos hb] at hc
      exact ih _ _ hrest hlen_new (Or.inr ⟨u, hu0, rfl, rfl⟩) c hc
    · rw [if_neg hb] at hc
      by_cases hfit : len + (secText pref u).length + 1 ≤ max_chars
      · rw [if_pos hfit] at hc
        refine ih _ _ hrest ?_ (Or.inl hfit) c hc
        rw [List.map_append]
        calc (joinNLL (buf.map String.data
                ++ (pySplitlines (secText pref u)).map String.data)).length
            ≤ (joinNLL (buf.map String.data)).length
              + (joinNLL ((pySplitlines (secText pref u)).map String.data)).length + 1 :=
              length_joinNLL_append_le _ _
          _ ≤ len + (secText pref u).length + 1 := by omega
      · rw [if_neg hfit] at hc
        rcases List.mem_cons.mp hc with rfl | hc'
        · rcases hstate with hle | ⟨v, hv, hbuf, _⟩
          · left
            calc (pyStrip ⟨joinNLL (buf.map String.data)⟩).length
                = (stripL (joinNLL (buf.map String.data))).length := rfl
              _ ≤ (joinNLL (buf.map String.data)).length := stripL_length_le _
              _ ≤ len := hlen
              _ ≤ max_chars := hle
          · right
            refine ⟨v, hv, ?_⟩
            subst hbuf
            exact roundtrip_strip_lines (secText_stripped pref v)
        · exact ih _ _ hrest hlen_new (Or.inr ⟨u, hu0, rfl, rfl⟩) c hc'

lemma pack_sections_mem (max_chars : Nat)
    (sections : List (Option String × List String)) (pref : List String) :
    ∀ c ∈ pack_sections max_chars sections pref,
      c.length ≤ max_chars ∨ ∃ u ∈ sections, c = secText pref u := by
  intro c hc
  exact packAux_mem max_chars pref sections sections [] 0 (fun _ h => h)
    (by simp [joinNLL]) (Or.inl (Nat.zero_le _)) c hc

lemma pack_sections_two (max_chars : Nat) (pref : List String)
    (u v : Option String × List String)
    (hu : secText pref u ≠ "") (hv : secText pref v ≠ "")
    (hfit : (secText pref u).length + (secText pref v).length + 1 ≤ max_chars) :
    pack_sections max_chars [u, v] pref
      = [secText pref u ++ "\n" ++ secText pref v] := by
  have hbu : (pySplitlines (secText pref u)).isEmpty = false := pySplitlines_ne_nil hu
  have hju : joinNLL ((pySplitlines (secText pref u)).map String.data)
      = (secText pref u).data := joinNLL_pySplitlines (secText_stripped pref u)
  have hjv : joinNLL ((pySplitlines (secText pref v)).map String.data)
      = (secText pref v).data := joinNLL_pySplitlines (secText_stripped pref v)
  have hau : (pySplitlines (secText pref u)).map String.data ≠ [] := by
    intro he
    rw [he] at hju
    exact string_data_ne_nil hu hju.symm
  have hav : (pySplitlines (secText pref v)).map String.data ≠ [] := by
    intro he
    rw [he] at hjv
    exact string_data_ne_nil hv hjv.symm
  have hdu : (secText pref u).data = stripL (secText pref u).data :=
    (congrArg String.data (secText_stripped pref u)).symm
  have hdv : (secText pref v).data = stripL (secText pref v).data :=
    (congrArg String.data (secText_stripped pref v)).symm
  have key : pyStrip ⟨joinNLL ((pySplitlines (secText pref u)
        ++ pySplitlines (secText pref v)).map String.data)⟩
      = secText pref u ++ "\n" ++ secText pref v := by
    apply String.ext
    rw [pyStrip_mk_data]
    rw [List.map_append, joinNLL_append hau hav, hju, hjv]
    have hshape : (secText pref u ++ "\n" ++ secText pref v).data
        = (secText pref u).data ++ '\n' :: (secText pref v).data := by
      rw [String.data_append, String.data_append]
      simp
    rw [hshape]
    apply stripL_eq_self
    · intro a ha
      rw [List.head?_append] at ha
      cases hhu : (secText pref u).data with
      | nil => exact absurd hhu (string_data_ne_nil hu)
      | cons x xs =>
        rw [hhu] at ha
        simp only [List.head?_cons, Option.or, Option.some.injEq] at ha
        subst ha
        apply stripL_head_not_ws (l := (secText pref u).data)
        rw [← hdu, hhu]
        rfl
    · intro a ha
      rw [List.getLast?_append] at ha
      have hvl : ('\n' :: (secText pref v).data).getLast? = (secText pref v).data.getLast? := by
        cases hhv : (secText pref v).data with
        | nil => exact absurd hhv (string_data_ne_nil hv)
        | cons x xs => rw [List.getLast?_cons_cons]
      rw [hvl] at ha
      cases hg : (secText pref v).data.getLast? with
      | none => exact absurd (List.getLast?_eq_none_iff.mp hg) (string_data_ne_nil hv)
      | some b =>
        rw [hg] at ha
        simp only [Option.or, Option.some.injEq] at ha
        subst ha
        apply stripL_getLast_not_ws (l := (secText pref v).data)
        rw [← hdv]
        exact hg
  unfold pack_sections
  rw [packAux, if_pos (show ([] : List String).isEmpty = true from rfl)]
  rw [packAux, if_neg (show ¬(pySplitlines (secText pref u)).isEmpty = true by
    rw [hbu]; exact Bool.false_ne_true)]
  rw [if_pos hfit, packAux]
  have hne : ¬((pySplitlines (secText pref u) ++ pySplitlines (secText pref v)).isEmpty = true) := by
    rw [List.isEmpty_eq_true, List.append_eq_nil]
    intro hcon
    apply hau
    rw [hcon.1]
    rfl
  rw [if_neg hne, key]

/-! ### Coverage and size facts about `processH2` -/

lemma make_data (pref2 body : List String) :
    (make_prefixed_chunk pref2 body).data
      = stripL (joinNLL (((pref2 ++ body).filter
          (fun s => !s.data.isEmpty)).map String.data)) := rfl

lemma make_core_mem {x : List Char} {s : String} (pref2 body : List String)
    (hb : s ∈ body) (hsne : s.data ≠ []) (hx : x ∈ coreC s.data) :
    x ∈ coreC (make_prefixed_chunk pref2 body).data := by
  rw [make_data, coreC_strip, coreC_join, List.flatMap_map]
  apply List.mem_flatMap.mpr
  refine ⟨s, ?_, hx⟩
  apply List.mem_filter.mpr
  refine ⟨List.mem_append_right _ hb, ?_⟩
  simp [hsne]

lemma line_core_mem {text l : String} (hl : l ∈ pySplitlines text)
    (hne : ¬ stripL l.data = []) : stripL l.data ∈ coreC text.data := by
  rcases List.mem_map.mp hl with ⟨dl, hdl, rfl⟩
  show stripL dl ∈ coreL (splitlinesL text.data)
  apply List.mem_filter.mpr
  constructor
  · exact List.mem_map.mpr ⟨dl, hdl, rfl⟩
  · simpa using hne

lemma line_no_nl {text l : String} (hl : l ∈ pySplitlines text) :
    ∀ x ∈ l.data, x ≠ '\n' := by
  rcases List.mem_map.mp hl with ⟨dl, hdl, rfl⟩
  exact mem_splitAux_no_nl text.data hdl (by simp)

lemma coreC_to_lines {x c : String} (h : stripL x.data ∈ coreC c.data) :
    pyStrip x ∈ (pySplitlines c).map pyStrip := by
  have h2 : stripL x.data ∈ (splitlinesL c.data).map stripL :=
    (List.filter_sublist _).mem h
  rcases List.mem_map.mp h2 with ⟨dl, hdl, hdl2⟩
  apply List.mem_map.mpr
  refine ⟨⟨dl⟩, List.mem_map.mpr ⟨dl, hdl, rfl⟩, ?_⟩
  apply String.ext
  rw [pyStrip_mk_data, pyStrip_data]
  exact hdl2

lemma processH2_cover (max_chars : Nat) (basePref : List String)
    (u : Option String × List String) (l : String) (hl : l ∈ u.2)
    (h3m : pyStartsWith l "### " = false) (hnl : ∀ x ∈ l.data, x ≠ '\n')
    (hne : ¬ stripL l.data = []) :
    stripL l.data ∈ (processH2 max_chars basePref u).flatMap (fun c => coreC c.data) := by
  have hlne : l.data ≠ [] := by
    intro he
    exact hne (by rw [he]; rfl)
  have hlcore : stripL l.data ∈ coreC l.data := by
    rw [coreC_no_nl hnl, if_neg hne]
    exact List.mem_singleton.mpr rfl
  unfold processH2
  by_cases hfit : (secText basePref u).length ≤ max_chars
  · rw [if_pos hfit]
    simp only [List.flatMap_cons, List.flatMap_nil, List.append_nil]
    exact make_core_mem (basePref ++ titleList u.1) u.2 hl hlne hlcore
  · rw [if_neg hfit]
    have hbody : l ∈ (sectionize u.2 "### ").flatMap (fun s => s.2) := by
      show l ∈ (sectionizeAux "### " u.2 none []).flatMap (fun s => s.2)
      rw [sectionizeAux_bodies]
      simp only [List.nil_append]
      exact List.mem_filter.mpr ⟨hl, by rw [h3m]; rfl⟩
    rcases List.mem_flatMap.mp hbody with ⟨v, hv, hlv⟩
    by_cases hempty : (sectionize u.2 "### ").isEmpty = true
    · rw [List.isEmpty_eq_true] at hempty
      rw [hempty] at hv
      simp at hv
    · rw [if_neg hempty, List.flatMap_append]
      by_cases hvfit : (secText (basePref ++ titleList u.1) v).length ≤ max_chars
      · apply List.mem_append_right
        rw [pack_sections_core]
        apply List.mem_flatMap.mpr
        refine ⟨v, List.mem_filter.mpr ⟨hv, by simpa using hvfit⟩, ?_⟩
        exact make_core_mem ((basePref ++ titleList u.1) ++ titleList v.1) v.2 hlv hlne hlcore
      · apply List.mem_append_left
        rw [List.flatMap_assoc]
        apply List.mem_flatMap.mpr
        refine ⟨v, List.mem_filter.mpr ⟨hv, ?_⟩, ?_⟩
        · simp only [decide_eq_true_eq]
          omega
        rw [pack_sections_core]
        have hjoin : stripL l.data ∈ coreC (joinNLL (v.2.map String.data)) := by
          rw [coreC_join, List.flatMap_map]
          exact List.mem_flatMap.mpr ⟨l, hlv, hlcore⟩
        rw [← coreC_split2NL] at hjoin
        rcases List.mem_flatMap.mp hjoin with ⟨p, hp, hpl⟩
        have hpne : (stripL p).isEmpty = false := by
          rw [Bool.eq_false_iff]
          intro hemp
          rw [List.isEmpty_eq_true] at hemp
          rw [coreC_of_strip_nil hemp] at hpl
          simp at hpl
        have hpdata : ((⟨p⟩ : String)).data ≠ [] := by
          intro he
          show False
          have : stripL p = [] := by
            have hpd : p = [] := he
            rw [hpd]
            rfl
          rw [this] at hpne
          simp at hpne
        apply List.mem_flatMap.mpr
        refine ⟨((none : Option String), [(⟨p⟩ : String)]), ?_, ?_⟩
        · unfold paragraphs
          apply List.mem_map.mpr
          exact ⟨p, List.mem_filter.mpr ⟨hp, by rw [hpne]; rfl⟩, rfl⟩
        · exact make_core_mem _ _ (List.mem_singleton.mpr rfl) hpdata hpl

lemma processH2_bound (max_chars : Nat) (basePref : List String)
    (u : Option String × List String) (c : String)
    (hc : c ∈ processH2 max_chars basePref u) :
    c.length ≤ max_chars ∨
      ∃ pref2 p, ¬ stripL p.data = [] ∧ hasDbl p.data = false
        ∧ c = make_prefixed_chunk pref2 [p] := by
  have hpara : ∀ (body : List String) (pre : List String),
      c ∈ pack_sections max_chars (paragraphs body) pre →
      c.length ≤ max_chars ∨ ∃ pref2 p, ¬ stripL p.data = [] ∧ hasDbl p.data = false
        ∧ c = make_prefixed_chunk pref2 [p] := by
    intro body pre hcp
    rcases pack_sections_mem max_chars (paragraphs body) pre c hcp with hle | ⟨w, hw, hcw⟩
    · exact Or.inl hle
    · right
      unfold paragraphs at hw
      rcases List.mem_map.mp hw with ⟨p, hpf, hpw⟩
      rcases List.mem_filter.mp hpf with ⟨hp, hpne⟩
      refine ⟨pre ++ titleList (none : Option String), ⟨p⟩, ?_, split2NL_no_dbl hp, ?_⟩
      · intro he
        rw [show ((⟨p⟩ : String)).data = p from rfl] at he
        rw [he] at hpne
        simp at hpne
      · rw [hcw, ← hpw]
        rfl
  unfold processH2 at hc
  by_cases hfit : (secText basePref u).length ≤ max_chars
  · rw [if_pos hfit] at hc
    rw [List.mem_singleton] at hc
    subst hc
    exact Or.inl hfit
  · rw [if_neg hfit] at hc
    by_cases hempty : (sectionize u.2 "### ").isEmpty = true
    · rw [if_pos hempty] at hc
      exact hpara u.2 _ hc
    · rw [if_neg hempty] at hc
      rcases List.mem_append.mp hc with hcl | hcr
      · rcases List.mem_flatMap.mp hcl with ⟨v, _, hcv⟩
        exact hpara v.2 _ hcv
      · rcases pack_sections_mem _ _ _ c hcr with hle | ⟨v, hvf, hcv⟩
        · exact Or.inl hle
        · left
          rcases List.mem_filter.mp hvf with ⟨_, hcond⟩
          rw [hcv]
          simpa using hcond

lemma split_ok_inv {doc_location text : String} {max_chars : Nat} {cs : List String}
    (hok : split_into_hierarchical_chunks doc_location text max_chars = Except.ok cs) :
    (text.length ≤ max_chars ∧ cs = [pyStrip text]) ∨
    (¬ text.length ≤ max_chars ∧ ∃ basePref, cs =
      (sectionize (pySplitlines text) "## ").flatMap (processH2 max_chars basePref)) := by
  unfold split_into_hierarchical_chunks at hok
  split at hok
  · exact absurd hok (by simp)
  · split at hok
    · left
      exact ⟨‹_›, (Except.ok.inj hok).symm⟩
    · right
      exact ⟨‹_›, _, (Except.ok.inj hok).symm⟩

/-! ### Symbolic evaluation on long character runs -/

lemma charRun_length (c : Char) (n : Nat) : (charRun c n).length = n :=
  List.length_replicate n c

lemma run_no_nl {c : Char} (hc : c ≠ '\n') (n : Nat) :
    ∀ x ∈ List.replicate n c, x ≠ '\n' := by
  intro x hx
  rw [List.eq_of_mem_replicate hx]
  exact hc

lemma split2Aux_no_nl : ∀ (cs : List Char), (∀ x ∈ cs, x ≠ '\n') → ∀ acc,
    split2Aux cs acc = [acc.reverse ++ cs] := by
  intro cs
  induction cs with
  | nil => intro _ acc; simp [split2Aux]
  | cons c t ih =>
    intro h acc
    have hc : c ≠ '\n' := h c (List.mem_cons_self c t)
    cases t with
    | nil => simp [split2Aux]
    | cons c2 rest =>
      rw [split2Aux, if_neg (by simp [hc])]
      rw [ih (fun x hx => h x (List.mem_cons_of_mem c hx)) (c :: acc)]
      simp

lemma dropWhile_run {c : Char} (hc : pyWs c = false) (n : Nat) (l : List Char) :
    List.dropWhile pyWs (List.replicate (n + 1) c ++ l) = List.replicate (n + 1) c ++ l := by
  rw [List.replicate_succ, List.cons_append, List.dropWhile_cons_of_neg (by simp [hc])]

lemma rstripL_append_run {c : Char} (hc : pyWs c = false) (n : Nat) (l : List Char) :
    rstripL (l ++ List.replicate (n + 1) c) = l ++ List.replicate (n + 1) c := by
  unfold rstripL
  rw [List.reverse_append, List.reverse_replicate, dropWhile_run hc,
    List.reverse_append, List.reverse_replicate, List.reverse_reverse]

lemma stripL_append_run {c : Char} (hc : pyWs c = false) {n : Nat} (hn : n ≠ 0)
    (l : List Char) :
    stripL (l ++ List.replicate n c) = List.dropWhile pyWs l ++ List.replicate n c := by
  obtain ⟨m, rfl⟩ := Nat.exists_eq_succ_of_ne_zero hn
  unfold stripL lstripL
  rw [rstripL_append_run hc, List.dropWhile_append]
  by_cases h : (List.dropWhile pyWs l).isEmpty = true
  · rw [if_pos h]
    rw [List.isEmpty_eq_true] at h
    rw [h, List.nil_append]
    have hstep := dropWhile_run hc m []
    rw [List.append_nil] at hstep
    rw [hstep]
  · rw [if_neg h]

lemma splitAux_run_guard {c : Char} {n : Nat} (hn : n ≠ 0) :
    ¬(([] : List Char) = [] ∧ List.replicate n c = []) :=
  fun hcon => hn ((List.replicate_eq_nil_iff c).mp hcon.2)

/-! ### Evaluation of the C2 scenario input -/

lemma pack_sections_nil (max_chars : Nat) (pre : List String) :
    pack_sections max_chars [] pre = [] := rfl

lemma c2text_data : c2text.data
    = "# Title\n\n## Intro\nShort body.\n\n## Details".data
      ++ '\n' :: List.replicate 6000 'x' := rfl

lemma c2_lines : pySplitlines c2text
    = ["# Title", "", "## Intro", "Short body.", "", "## Details", charRun 'x' 6000] := by
  unfold pySplitlines splitlinesL
  rw [c2text_data, splitAux_append_nl,
    splitAux_no_nl _ (run_no_nl (by decide) 6000) []]
  rw [if_neg (splitAux_run_guard (by decide))]
  rfl

lemma c2text_length : c2text.length = 6042 := by
  show ("# Title\n\n## Intro\nShort body.\n\n## Details\n" ++ charRun 'x' 6000).length = 6042
  rw [String.length_append, charRun_length]
  decide

lemma c2_find :
    (pySplitlines c2text).find? (fun ln => pyStartsWith ln "# ") = some "# Title" := by
  rw [c2_lines]
  rfl

lemma c2chunk2_data : c2chunk2.data
    = "Document location: [L](L)\n\n# Title\n## Details\n".data
      ++ List.replicate 6000 'x' := rfl

lemma c2make_eq :
    make_prefixed_chunk ([h1L] ++ titleList (some "## Details")) [charRun 'x' 6000]
      = c2chunk2 := by
  apply String.ext
  rw [make_data]
  rw [show (([h1L] ++ titleList (some "## Details")) ++ [charRun 'x' 6000]).filter
      (fun s => !s.data.isEmpty) = [h1L, "## Details", charRun 'x' 6000] from rfl]
  rw [show ([h1L, "## Details", charRun 'x' 6000].map String.data)
      = [h1L.data, "## Details".data, (charRun 'x' 6000).data] from rfl]
  rw [joinNLL_cons_ne _ (by simp), joinNLL_cons_ne _ (by simp), joinNLL_singleton]
  rw [show h1L.data ++ '\n' :: ("## Details".data ++ '\n' :: (charRun 'x' 6000).data)
      = "Document location: [L](L)\n\n# Title\n## Details\n".data ++ List.replicate 6000 'x'
      from rfl]
  rw [stripL_append_run (by decide) (by decide), c2chunk2_data]
  rfl

lemma c2sec_eq :
    secText [h1L] ((some "## Details" : Option String), [charRun 'x' 6000]) = c2chunk2 :=
  c2make_eq

lemma c2chunk2_length : c2chunk2.length = 6046 := by
  show ("Document location: [L](L)\n\n# Title\n## Details\n" ++ charRun 'x' 6000).length = 6046
  rw [String.length_append, charRun_length]
  decide

lemma c2chunk2_lines : pySplitlines c2chunk2
    = ["Document location: [L](L)", "", "# Title", "## Details", charRun 'x' 6000] := by
  unfold pySplitlines splitlinesL
  rw [show c2chunk2.data = "Document location: [L](L)\n\n# Title\n## Details".data
      ++ '\n' :: List.replicate 6000 'x' from rfl]
  rw [splitAux_append_nl, splitAux_no_nl _ (run_no_nl (by decide) 6000) []]
  rw [if_neg (splitAux_run_guard (by decide))]
  rfl

lemma c2chunk2_stripped : pyStrip c2chunk2 = c2chunk2 := by
  apply String.ext
  rw [pyStrip_data, c2chunk2_data, stripL_append_run (by decide) (by decide)]
  rfl

lemma c2par : paragraphs [charRun 'x' 6000] = [((none : Option String), [charRun 'x' 6000])] := by
  unfold paragraphs
  rw [show ([charRun 'x' 6000].map String.data) = [(charRun 'x' 6000).data] from rfl,
    joinNLL_singleton]
  rw [show (charRun 'x' 6000).data = List.replicate 6000 'x' from rfl]
  rw [show split2NL (List.replicate 6000 'x') = [List.replicate 6000 'x'] from by
    unfold split2NL
    rw [split2Aux_no_nl _ (run_no_nl (by decide) 6000) []]
    rfl]
  have hstrip : stripL (List.replicate 6000 'x') = List.replicate 6000 'x' := by
    have h := @stripL_append_run 'x' (by decide) 6000 (by decide) []
    rw [List.nil_append, List.dropWhile_nil, List.nil_append] at h
    exact h
  have hcond : (!(stripL (List.replicate 6000 'x')).isEmpty) = true := by
    rw [hstrip]
    decide
  rw [List.filter_cons, if_pos hcond, List.filter_nil]
  rfl

lemma c2pack :
    pack_sections 5000 [((none : Option String), [charRun 'x' 6000])]
      ([h1L] ++ titleList (some "## Details") ++ titleList (none : Option String))
      = [c2chunk2] := by
  have hst : secText ([h1L] ++ titleList (some "## Details") ++ titleList (none : Option String))
      ((none : Option String), [charRun 'x' 6000]) = c2chunk2 := c2make_eq
  unfold pack_sections
  rw [packAux, if_pos (show ([] : List String).isEmpty = true from rfl)]
  rw [hst, c2chunk2_lines]
  rw [packAux, if_neg (by simp)]
  rw [← c2chunk2_lines, roundtrip_strip_lines c2chunk2_stripped]

lemma c2sec3 : processH2 5000 [h1L] ((some "## Details" : Option String), [charRun 'x' 6000])
    = [c2chunk2] := by
  have hsec2 : secText ([h1L] ++ titleList (some "## Details"))
      ((none : Option String), [charRun 'x' 6000]) = c2chunk2 := c2make_eq
  unfold processH2
  rw [c2sec_eq]
  rw [if_neg (by rw [c2chunk2_length]; decide)]
  rw [show sectionize [charRun 'x' 6000] "### "
      = [((none : Option String), [charRun 'x' 6000])] from rfl]
  rw [if_neg (by simp)]
  simp only [List.filter_cons, List.filter_nil]
  rw [hsec2, c2chunk2_length]
  rw [if_pos (by decide), if_neg (by decide)]
  simp only [List.flatMap_cons, List.flatMap_nil, List.append_nil, c2par, c2pack,
    pack_sections_nil]

lemma c2sec1 : processH2 5000 [h1L] ((none : Option String), ["# Title", ""])
    = [c2chunk0] := rfl

lemma c2sec2 : processH2 5000 [h1L] ((some "## Intro" : Option String), ["Short body.", ""])
    = [c2chunk1] := rfl

lemma c2_eval : split_into_hierarchical_chunks "L" c2text 5000
    = Except.ok [c2chunk0, c2chunk1, c2chunk2] := by
  unfold split_into_hierarchical_chunks
  split
  · next heq =>
      rw [c2_find] at heq
      exact absurd heq (by simp)
  · next ln heq =>
      rw [c2_find] at heq
      have hln : "# Title" = ln := Option.some.inj heq
      subst hln
      rw [if_neg (by rw [c2text_length]; decide)]
      rw [show (if ("Document location: [" ++ "L" ++ "](" ++ "L"
            ++ ")\n\n" ++ pyStrip "# Title").data.isEmpty then ([] : List String)
          else ["Document location: [" ++ "L" ++ "](" ++ "L"
            ++ ")\n\n" ++ pyStrip "# Title"]) = [h1L] from rfl]
      rw [c2_lines]
      rw [show sectionize ["# Title", "", "## Intro", "Short body.", "", "## Details",
            charRun 'x' 6000] "## "
          = [((none : Option String), ["# Title", ""]),
             ((some "## Intro" : Option String), ["Short body.", ""]),
             ((some "## Details" : Option String), [charRun 'x' 6000])] from rfl]
      simp only [List.flatMap_cons, List.flatMap_nil, List.append_nil]
      rw [c2sec1, c2sec2, c2sec3]
      rfl

/-! ### Evaluation of the C3, C5 and C7 scenario inputs -/

lemma c3_lines : pySplitlines (charRun 'a' 12000) = [charRun 'a' 12000] := by
  unfold pySplitlines splitlinesL
  rw [show (charRun 'a' 12000).data = List.replicate 12000 'a' from rfl]
  rw [splitAux_no_nl _ (run_no_nl (by decide) 12000) []]
  rw [if_neg (splitAux_run_guard (by decide))]
  rfl

lemma c3_find : (pySplitlines (charRun 'a' 12000)).find? (fun ln => pyStartsWith ln "# ")
    = none := by
  have hpa : pyStartsWith (charRun 'a' 12000) "# " = false := by decide
  rw [c3_lines]
  simp [List.find?, hpa]

lemma c3_eval : split_into_hierarchical_chunks "L" (charRun 'a' 12000) 5000
    = Except.error "TypeError" := by
  unfold split_into_hierarchical_chunks
  split
  · rfl
  · next ln heq =>
      rw [c3_find] at heq
      exact absurd heq (by simp)

set_option maxRecDepth 8192 in
lemma c5_eval : split_into_hierarchical_chunks "D" c5text 50
    = Except.ok [dTitleChunk, c5chunk1] := rfl

set_option maxRecDepth 8192 in
lemma c7_eval : split_into_hierarchical_chunks "D" c7text 100
    = Except.ok [dTitleChunk, c7chunkD, c7chunkM] := rfl

/-! ### Claim theorems -/

/-- C1 (code_bug): the specified short-circuit — for any text with
`length(text) ≤ max_chars` the function returns `[trim(text)]` — fails.  On
the 5-character input `"hello"` with `max_chars = 5000` the source raises
`TypeError`: line 71 concatenates the location prefix with `h1 = None`
before the short-circuit at line 122 runs, modelled as
`Except.error "TypeError"`. -/
theorem C1_short_circuit_crashes :
    "hello".length ≤ 5000 ∧
    split_into_hierarchical_chunks "L" "hello" 5000 = Except.error "TypeError" :=
  ⟨by decide, rfl⟩

/-- C2 counterexample: on the scenario input the function returns 3 chunks,
not the 2 the claim states. -/
theorem C2_counterexample :
    (split_into_hierarchical_chunks "L" c2text 5000).map List.length = Except.ok 3 := by
  rw [c2_eval]
  rfl

/-- C2 (corrected): on the scenario input (`"# Title\n\n## Intro\nShort
body.\n\n## Details\n"` followed by 6000 x's, `max_chars = 5000`) the
function returns exactly the three chunks `c2chunk0` (the leading pre-`##`
segment, with `# Title` duplicated after the location line), `c2chunk1`
(`## Intro` with its body) and `c2chunk2` (the oversized `## Details`
section emitted as one chunk). -/
theorem C2_example_scenario : split_into_hierarchical_chunks "L" c2text 5000
    = Except.ok [c2chunk0, c2chunk1, c2chunk2] := c2_eval

/-- C3 (code_bug): the function is not total on heading-free input: a
12000-character document with no heading markers raises `TypeError` at line
71 (`str + None`) instead of being chunked by the paragraph fallback. -/
theorem C3_no_heading_raises :
    split_into_hierarchical_chunks "L" (charRun 'a' 12000) 5000
      = Except.error "TypeError" := c3_eval

/-- C4 counterexample: with completion order `[failure, success of "B"]`,
the loop aborts on the failure and document B's completion is never added
to the progress set, contradicting the claimed per-document isolation. -/
theorem C4_counterexample :
    final_progress [none, some "B"] [] = [] ∧
    ¬ "B" ∈ final_progress [none, some "B"] [] := by
  decide

/-- C4 (corrected): the completion loop is aborted by the first raised task
failure (`fut.result()` at line 311 is not guarded): exactly the documents
that complete before the first failure are added to the progress set and
checkpointed; every later completion — failing or not — is lost for this
run. -/
theorem C4_completion_loop : ∀ (arr : List (Option String)) (done : List String),
    completion_loop arr done
      = if arr.all Option.isSome
        then Except.ok (addAll done ((arr.takeWhile Option.isSome).filterMap id))
        else Except.error (addAll done ((arr.takeWhile Option.isSome).filterMap id)) := by
  intro arr
  induction arr with
  | nil =>
    intro done
    simp [completion_loop, addAll]
  | cons o rest ih =>
    intro done
    cases o with
    | none =>
      simp [completion_loop, addAll, List.takeWhile_cons]
    | some n =>
      rw [show completion_loop (some n :: rest) done
          = completion_loop rest
              (if done.contains (basename n) then done else done ++ [basename n]) from rfl]
      rw [ih]
      simp [addAll, List.takeWhile_cons, List.filterMap_cons]

/-- C5 counterexample: on `c5text` (a 9-character header part plus a
48-character paragraph) with `max_chars = 50` the returned chunk `c5chunk1`
has 84 characters even though its single paragraph alone fits the bound:
the bound is broken by the injected header prefix, not by an indivisible
oversized paragraph. -/
theorem C5_counterexample :
    split_into_hierarchical_chunks "D" c5text 50 = Except.ok [dTitleChunk, c5chunk1] ∧
    50 < c5chunk1.length ∧ (charRun 'p' 48).length ≤ 50 :=
  ⟨c5_eval, by decide, by decide⟩

/-- C5 (corrected): every chunk of a successful run either fits
`max_chars` or is the rendering `make_prefixed_chunk pref2 [p]` of a single
paragraph `p` — nonblank and free of blank-line boundaries — under its
header prefix; the rendered chunk (prefix included, not the paragraph
alone) is what exceeds the bound. -/
theorem C5_size_bound {doc_location text : String} {max_chars : Nat} {cs : List String}
    {c : String}
    (hok : split_into_hierarchical_chunks doc_location text max_chars = Except.ok cs)
    (hc : c ∈ cs) :
    c.length ≤ max_chars ∨
      ∃ pref2 p, ¬ stripL p.data = [] ∧ hasDbl p.data = false
        ∧ c = make_prefixed_chunk pref2 [p] := by
  rcases split_ok_inv hok with ⟨hle, rfl⟩ | ⟨_, basePref, rfl⟩
  · left
    rw [List.mem_singleton] at hc
    subst hc
    have h1 : (pyStrip text).length ≤ text.length := by
      show (stripL text.data).length ≤ text.data.length
      exact stripL_length_le text.data
    exact le_trans h1 hle
  · rcases List.mem_flatMap.mp hc with ⟨u, _, hcu⟩
    exact processH2_bound max_chars basePref u c hcu

/-- C5 witness: the size-bound theorem applied to the concrete `c5text` run
at its second chunk. -/
theorem C5_size_bound_witness :
    c5chunk1.length ≤ 50 ∨
      ∃ pref2 p, ¬ stripL p.data = [] ∧ hasDbl p.data = false
        ∧ c5chunk1 = make_prefixed_chunk pref2 [p] :=
  C5_size_bound c5_eval (List.mem_cons_of_mem _ (List.mem_singleton.mpr rfl))

/-- C6 counterexample: on `c7text` with `max_chars = 100` the kept
(non-header) input lines are not a subsequence of the concatenated chunk
lines: the oversized `### D` unit is emitted before the packed `### B` and
`### C` units, so original order is not preserved. -/
theorem C6_counterexample :
    split_into_hierarchical_chunks "D" c7text 100
      = Except.ok [dTitleChunk, c7chunkD, c7chunkM] ∧
    ¬ List.Sublist (keptLines c7text) (chunkLines [dTitleChunk, c7chunkD, c7chunkM]) :=
  ⟨c7_eval, by decide⟩

/-- C6 (corrected): coverage holds without order or verbatim lines: every
line of the input that is not an H2/H3 marker line and is not blank after
trimming appears, trimmed, as a (trimmed) line of some returned chunk. -/
theorem C6_coverage {doc_location text : String} {max_chars : Nat} {cs : List String}
    {l : String}
    (hok : split_into_hierarchical_chunks doc_location text max_chars = Except.ok cs)
    (hl : l ∈ pySplitlines text)
    (h2m : pyStartsWith l "## " = false) (h3m : pyStartsWith l "### " = false)
    (hne : ¬ stripL l.data = []) :
    ∃ c ∈ cs, pyStrip l ∈ (pySplitlines c).map pyStrip := by
  rcases split_ok_inv hok with ⟨_, rfl⟩ | ⟨_, basePref, rfl⟩
  · refine ⟨pyStrip text, List.mem_singleton.mpr rfl, ?_⟩
    apply coreC_to_lines
    rw [pyStrip_data, coreC_strip]
    exact line_core_mem hl hne
  · have hbody : l ∈ (sectionize (pySplitlines text) "## ").flatMap (fun s => s.2) := by
      show l ∈ (sectionizeAux "## " (pySplitlines text) none []).flatMap (fun s => s.2)
      rw [sectionizeAux_bodies]
      simp only [List.nil_append]
      exact List.mem_filter.mpr ⟨hl, by rw [h2m]; rfl⟩
    rcases List.mem_flatMap.mp hbody with ⟨u, hu, hlu⟩
    have hcov := processH2_cover max_chars basePref u l hlu h3m (line_no_nl hl) hne
    rcases List.mem_flatMap.mp hcov with ⟨c, hc, hlc⟩
    exact ⟨c, List.mem_flatMap.mpr ⟨u, hu, hc⟩, coreC_to_lines hlc⟩

set_option maxRecDepth 8192 in
/-- C6 witness: the coverage theorem applied to the concrete `c7text` run
at its body line `"bbb"`. -/
theorem C6_coverage_witness :
    ∃ c ∈ [dTitleChunk, c7chunkD, c7chunkM],
      pyStrip "bbb" ∈ (pySplitlines c).map pyStrip :=
  C6_coverage c7_eval (by decide) (by decide) (by decide) (by decide)

/-- C7 counterexample: in the merged chunk of the `c7text` run the shared
header-context line appears twice, once per merged unit, not exactly once. -/
theorem C7_counterexample :
    split_into_hierarchical_chunks "D" c7text 100
      = Except.ok [dTitleChunk, c7chunkD, c7chunkM] ∧
    (pySplitlines c7chunkM).count "Document location: [D](D)" = 2 :=
  ⟨c7_eval, by decide⟩

/-- C7 (corrected): when two fitting units are packed into one chunk, that
chunk is the concatenation of the two fully prefixed unit renderings — the
shared header-context prefix recurs once per merged unit (the buffered
prefix of the source is dead state), it does not appear exactly once. -/
theorem C7_merged_prefix (max_chars : Nat) (pref : List String)
    (u v : Option String × List String)
    (hu : secText pref u ≠ "") (hv : secText pref v ≠ "")
    (hfit : (secText pref u).length + (secText pref v).length + 1 ≤ max_chars) :
    pack_sections max_chars [u, v] pref
      = [secText pref u ++ "\n" ++ secText pref v] :=
  pack_sections_two max_chars pref u v hu hv hfit

/-- C7 witness: the merged-chunk theorem applied to two small fitting
sections under the prefix `["# T"]`. -/
theorem C7_merged_prefix_witness :
    pack_sections 100 [((some "## A" : Option String), ["a"]),
        ((some "## B" : Option String), ["b"])] ["# T"]
      = [secText ["# T"] ((some "## A" : Option String), ["a"]) ++ "\n"
          ++ secText ["# T"] ((some "## B" : Option String), ["b"])] :=
  C7_merged_prefix 100 ["# T"] ((some "## A" : Option String), ["a"])
    ((some "## B" : Option String), ["b"]) (by decide) (by decide) (by decide)

/-- C8 (confirmed): with checkpoint contents `["A", "B"]` and resources
`["A", "B", "C"]` the scheduler processes exactly `["C"]`; in general a
path is pending exactly when it is a resource whose base filename is not in
the progress set; and after the run completes the checkpoint holds exactly
the sorted `["A", "B", "C"]`. -/
theorem C8_resume :
    files_to_process ["A", "B", "C"] (load_progress (some ["A", "B"])) = ["C"] ∧
    (∀ (p : String) (all done : List String),
      p ∈ files_to_process all done ↔ p ∈ all ∧ ¬ basename p ∈ done) ∧
    save_progress (final_progress [some "C"] (load_progress (some ["A", "B"])))
      = ["A", "B", "C"] := by
  refine ⟨by decide, ?_, by decide⟩
  intro p all done
  unfold files_to_process
  rw [List.mem_filter]
  constructor
  · rintro ⟨h1, h2⟩
    refine ⟨h1, fun hmem => ?_⟩
    have he : done.elem (basename p) = true := List.elem_iff.mpr hmem
    rw [show done.contains (basename p) = done.elem (basename p) from rfl, he] at h2
    simp at h2
  · rintro ⟨h1, h2⟩
    refine ⟨h1, ?_⟩
    rw [show done.contains (basename p) = done.elem (basename p) from rfl]
    cases he : done.elem (basename p) with
    | false => rfl
    | true => exact absurd (List.elem_iff.mp he) h2

/-- C9 counterexample: `sectionize` trims marker lines, so reinserting the
titles reconstructs `["## A"]`, not the original `["## A "]`; and the empty
input yields zero pairs, not a single pair. -/
theorem C9_counterexample :
    sectionize ["## A "] "## " = [((some "## A" : Option String), ([] : List String))] ∧
    ¬ reconstructSections (sectionize ["## A "] "## ") = ["## A "] ∧
    sectionize ([] : List String) "## " = [] := by
  decide

/-- C9 (corrected): for any nonblank marker, reinserting the titles into
the `sectionize` result reconstructs the original lines with each marker
line trimmed (so no line is dropped, but marker lines are not verbatim);
and marker-free input yields a single pair exactly when the input is
nonempty — empty input yields no pair. -/
theorem C9_sectionize (lines : List String) (marker : String)
    (hm : ¬ stripL marker.data = []) :
    reconstructSections (sectionize lines marker)
      = lines.map (fun ln => if pyStartsWith ln marker then pyStrip ln else ln)
    ∧ ((∀ l ∈ lines, pyStartsWith l marker = false) →
        sectionize lines marker
          = if lines.isEmpty then [] else [((none : Option String), lines)]) := by
  constructor
  · have h := sectionizeAux_reconstruct hm lines none [] (Or.inl rfl)
    unfold sectionize
    rw [h]
    rfl
  · intro hno
    unfold sectionize
    rw [sectionizeAux_no_marker lines none [] hno]
    cases lines with
    | nil => simp [optTruthy]
    | cons a l => simp [optTruthy]

/-- C9 witness: the sectionize theorem applied to a concrete three-line
input with one marker line. -/
theorem C9_sectionize_witness :
    reconstructSections (sectionize ["x", "## B ", "y"] "## ")
      = ["x", "## B ", "y"].map (fun ln => if pyStartsWith ln "## " then pyStrip ln else ln)
    ∧ ((∀ l ∈ ["x", "## B ", "y"], pyStartsWith l "## " = false) →
        sectionize ["x", "## B ", "y"] "## "
          = if (["x", "## B ", "y"] : List String).isEmpty then []
            else [((none : Option String), ["x", "## B ", "y"])]) :=
  C9_sectionize ["x", "## B ", "y"] "## " (by decide)
